import Mathlib

/-
Verification of the Subset Build Orchestrator of local_google_font_api.

This development shallowly embeds the Python sources (src/font_service.py,
src/server.py, src/utils.py) in Lean 4:

* Python strings are modelled as `List Char` (with `String` wrappers at the
  claim boundary); the Python string operations used by the code
  (split, strip, upper, startswith/slicing, membership, replace) are
  reproduced on `List Char`.
* `int(x, 16)` is modelled by `pyIntHex`, accepting a non-empty sequence of
  hexadecimal digits and failing (ValueError) otherwise.  The exotic forms
  Python additionally accepts for base-16 literals (leading sign, an "0x"
  marker, underscore separators) cannot occur in a unicode-range token and
  play no role in any claim.
* Python floats arising here are exact quotients of small integers; they are
  modelled as `ℚ`.  Dynamic typing of the variable `actual_set` in the
  metadata phase (a set on one branch, the float `0.0` on the other) is
  modelled by the sum type `PySetOrFloat`, and `len` by `pyLen`, which raises
  `TypeError` on a float exactly as Python does.
* Exceptions are modelled by `Except PyExc`; a `try/except` of the source
  becomes an explicit `match` on the exceptional result.
* The filesystem state touched by the service (the woff2 cache directory and
  the per-family metadata directory) is the structure `FSState`.  The md5
  fingerprint, the configured subset table `SUBSET` (imported from the
  font_subset module, which only provides configuration data), the font's
  cmap key set, and the success/failure behaviour of the external fontTools
  calls are parameters, collected in `BuildEnv`.
-/

/-! ## Python string primitives on `List Char` -/

/-- Whitespace recognised by Python's `str.strip()` (the ASCII whitespace
characters; the code never feeds non-ASCII whitespace to `strip`). -/
def isPySpace (c : Char) : Bool :=
  decide (c.toNat = 32 ∨ c.toNat = 9 ∨ c.toNat = 10 ∨ c.toNat = 13 ∨
    c.toNat = 11 ∨ c.toNat = 12)

/-- Python `s.strip()`: remove leading and trailing whitespace. -/
def pyStrip (l : List Char) : List Char :=
  ((l.dropWhile isPySpace).reverse.dropWhile isPySpace).reverse

/-- Python `s.split(sep)` for a one-character separator: `"".split(sep)`
yields `[""]`, and empty pieces between separators are kept. -/
def pySplitBy (sep : Char) : List Char → List (List Char)
  | [] => [[]]
  | c :: rest =>
    if c == sep then [] :: pySplitBy sep rest
    else
      match pySplitBy sep rest with
      | [] => [[c]]
      | h :: t => (c :: h) :: t

/-- ASCII uppercasing of one character, as Python's `str.upper()` acts on the
ASCII range (the code only uppercases range tokens). -/
def upperChar (c : Char) : Char :=
  if 97 ≤ c.toNat ∧ c.toNat ≤ 122 then Char.ofNat (c.toNat - 32) else c

/-- Python `s.upper()`. -/
def pyUpper (l : List Char) : List Char := l.map upperChar

/-- Python `t in s` for a one-character `t`. -/
def containsChar (t : Char) (l : List Char) : Bool := l.any (fun c => c == t)

/-- Value of one hexadecimal digit (`0-9`, `A-F`, `a-f`). -/
def hexDigitVal (c : Char) : Option ℕ :=
  if 48 ≤ c.toNat ∧ c.toNat ≤ 57 then some (c.toNat - 48)
  else if 65 ≤ c.toNat ∧ c.toNat ≤ 70 then some (c.toNat - 55)
  else if 97 ≤ c.toNat ∧ c.toNat ≤ 102 then some (c.toNat - 87)
  else none

/-- One step of the hexadecimal accumulation underlying `int(x, 16)`. -/
def hexStep (acc : Option ℕ) (c : Char) : Option ℕ :=
  match acc, hexDigitVal c with
  | some a, some d => some (16 * a + d)
  | _, _ => none

/-- Python `int(x, 16)` on the token material occurring here: a non-empty
string of hex digits denotes its value, anything else raises ValueError
(modelled as `none`). -/
def pyIntHex (l : List Char) : Option ℕ :=
  if l.isEmpty then none else l.foldl hexStep (some 0)

/-- Python `part.split('-', 1)[0]`: the material before the first dash. -/
def takeBeforeDash (l : List Char) : List Char :=
  l.takeWhile (fun c => !(c == '-'))

/-- Python `part.split('-', 1)[1]`: the material after the first dash. -/
def afterFirstDash (l : List Char) : List Char :=
  (l.dropWhile (fun c => !(c == '-'))).drop 1

/-- Python `s[2:] if s.startswith('U+') else s` (applied after uppercasing). -/
def dropUPlus (l : List Char) : List Char :=
  match l with
  | 'U' :: '+' :: rest => rest
  | _ => l

/-! ## Exceptions -/

/-- The Python exceptions relevant to the embedded code. -/
inductive PyExc where
  | valueError (msg : String)
  | typeError (msg : String)
deriving DecidableEq

/-- `int(x, 16)` with its ValueError made explicit. -/
def intHexE (l : List Char) : Except PyExc ℕ :=
  match pyIntHex l with
  | some v => Except.ok v
  | none => Except.error (PyExc.valueError "invalid literal for int() with base 16")

/-! ## FontService.parse_unicode_range (src/font_service.py lines 43-80) -/

/-- One iteration of the parsing loop, for a single (already comma-split and
stripped) token.  A token containing a dash is treated as a range
`U+AAAA-BBBB` (both bounds stripped, uppercased, and shorn of an optional
`U+`); the resulting contribution is `range(start, end + 1)` as a set, that
is `Finset.Icc start end`.  A dash-free token is a single codepoint.  A
failing hex conversion is caught (the code prints a warning) and contributes
nothing. -/
def parsePartChars (p : List Char) : Finset ℕ :=
  if containsChar '-' p then
    match pyIntHex (dropUPlus (pyUpper (pyStrip (takeBeforeDash p)))),
        pyIntHex (dropUPlus (pyUpper (pyStrip (afterFirstDash p)))) with
    | some a, some b => Finset.Icc a b
    | _, _ => ∅
  else
    match pyIntHex (dropUPlus (pyUpper (pyStrip p))) with
    | some v => {v}
    | none => ∅

/-- The parsing loop over the comma-split parts; empty parts are skipped
(`if not part: continue`), the rest accumulate into the result set. -/
def parsePartsChars (ps : List (List Char)) : Finset ℕ :=
  ps.foldl (fun acc p => if p.isEmpty then acc else acc ∪ parsePartChars p) ∅

/-- Body of `FontService.parse_unicode_range` on the character list of the
input string. -/
def parseChars (l : List Char) : Finset ℕ :=
  parsePartsChars ((pySplitBy ',' l).map pyStrip)

/-- `FontService.parse_unicode_range` (static method, src/font_service.py
lines 43-80). -/
def parse_unicode_range (s : String) : Finset ℕ :=
  parseChars s.toList

/-- Variant of `parsePartChars` with the int() exceptions explicit: the
`try/except ValueError` of the source becomes a match that turns a
ValueError into an empty contribution and would propagate anything else. -/
def parsePartCharsE (p : List Char) : Except PyExc (Finset ℕ) :=
  if containsChar '-' p then
    match (do
      let a ← intHexE (dropUPlus (pyUpper (pyStrip (takeBeforeDash p))))
      let b ← intHexE (dropUPlus (pyUpper (pyStrip (afterFirstDash p))))
      Except.ok (a, b) : Except PyExc (ℕ × ℕ)) with
    | Except.ok (a, b) => Except.ok (Finset.Icc a b)
    | Except.error (PyExc.valueError _) => Except.ok ∅
    | Except.error e => Except.error e
  else
    match intHexE (dropUPlus (pyUpper (pyStrip p))) with
    | Except.ok v => Except.ok {v}
    | Except.error (PyExc.valueError _) => Except.ok ∅
    | Except.error e => Except.error e

/-- `parse_unicode_range` with the exception flow explicit: the loop over
parts threads the result set, and each part's exceptional outcome is the one
of `parsePartCharsE`. -/
def parse_unicode_rangeE (s : String) : Except PyExc (Finset ℕ) :=
  ((pySplitBy ',' s.toList).map pyStrip).foldlM
    (fun acc p =>
      if p.isEmpty then Except.ok acc
      else (parsePartCharsE p).map (fun r => acc ∪ r))
    ∅

/-! ## FontService state and configuration (src/font_service.py) -/

/-- A metadata record as written by the metadata phase of
`FontService.create_subset` (src/font_service.py lines 183-190) and read back
by `get_meta_data`; field for field the JSON object, with the float
`coverage` as an exact rational. -/
structure MetaData where
  font_family : String
  subset_range : String
  woff2_file_name : String
  subset : String
  coverage : ℚ
  supported_chars : ℕ
deriving DecidableEq

/-- The filesystem state the service touches: the set of woff2 file names
present in the cache directory (jobs write distinct keys concurrently, so
only the resulting set is determined), and the per-family metadata files in
write order (the metadata phase is single-threaded), each an association
(family directory, file name, parsed content). -/
structure FSState where
  cache : Finset String
  meta : List (String × String × MetaData)
deriving DecidableEq

/-- Environment of one `create_subset` call: the md5 hex digest (an opaque
function of the key string), the configured `SUBSET` table imported from the
font_subset module, the host CPU count, the key set of the font's best cmap
(`get_font_supported_chars`), and the success of each external fontTools
step of `_process_single_subset`, keyed by subset name: loading the font
(`TTFont`), the first `subsetter.subset` call, the relaxed retry, and
`font.save`. -/
structure BuildEnv where
  md5hex : String → String
  SUBSET : List String
  cpuCount : ℕ
  supported : Finset ℕ
  loadOk : String → Bool
  subOk1 : String → Bool
  subOk2 : String → Bool
  saveOk : String → Bool

/-- `FontService.get_subset_cache_key` (src/font_service.py lines 36-40):
md5 hex digest of `"{font_name}:{subset_name}"`. -/
def get_subset_cache_key (env : BuildEnv) (font_name subset_name : String) : String :=
  env.md5hex (font_name ++ ":" ++ subset_name)

/-- Existence test for a metadata file, `meta_data_file_path.exists()`. -/
def metaExists (st : FSState) (fam fn : String) : Bool :=
  st.meta.any (fun e => e.1 == fam && e.2.1 == fn)

/-- Python `Path.write_text` on a metadata file: overwrite if present,
create otherwise. -/
def writeMeta (st : FSState) (fam fn : String) (r : MetaData) : FSState :=
  if metaExists st fam fn then
    { st with
      meta := st.meta.map (fun e => if e.1 == fam && e.2.1 == fn then (fam, fn, r) else e) }
  else { st with meta := st.meta ++ [(fam, fn, r)] }

/-- `font.save` of a built artifact into the cache directory. -/
def writeCache (st : FSState) (fn : String) : FSState :=
  { st with cache := insert fn st.cache }

/-- Python `multiprocessing.cpu_count() / 4` truncated by `int(...)`
(src/font_service.py line 144). -/
def num_cores (cpuCount : ℕ) : ℕ := cpuCount / 4

/-- Construction of `concurrent.futures.ProcessPoolExecutor(max_workers=w)`:
raises `ValueError` when `w` is not positive, otherwise yields a pool of
`w` workers. -/
def process_pool_init (maxWorkers : ℕ) : Except PyExc ℕ :=
  if maxWorkers = 0 then
    Except.error (PyExc.valueError "max_workers must be greater than 0")
  else Except.ok maxWorkers

/-- The `enumerate(SUBSET)` pairs with the stringified index
(`subset_name = str(subset_name)`). -/
def subsetEntries (env : BuildEnv) : List (String × String) :=
  env.SUBSET.enum.map (fun p => (toString p.1, p.2))

/-- The skip test of both phases of `create_subset`
(src/font_service.py lines 131 and 172): the subset's metadata file exists
and no force rebuild was requested.  It consults only the metadata
directory, never the woff2 cache. -/
def skip_decision (st : FSState) (fam fn : String) (force : Bool) : Bool :=
  metaExists st fam (fn ++ ".json") && !force

/-- One task dictionary prepared by the build phase. -/
structure SubsetTask where
  subset : String
  subset_name : String
  woff2_file_name : String
deriving DecidableEq

/-- The task-selection loop of `create_subset` (src/font_service.py lines
125-139): enumerate the subset table and queue every subset whose skip test
fails. -/
def taskList (env : BuildEnv) (fam : String) (st : FSState) (force : Bool) :
    List SubsetTask :=
  (subsetEntries env).filterMap (fun e =>
    if skip_decision st fam (get_subset_cache_key env fam e.1) force then none
    else some
      { subset := e.2
        subset_name := e.1
        woff2_file_name := get_subset_cache_key env fam e.1 })

/-- Terminal outcome of one subset job, as returned (never raised) by
`_process_single_subset`; each constructor corresponds to one of the
function's return statements and carries the subset name embedded in the
returned message. -/
inductive JobResult where
  | emptySkip (subset_name : String)
  | noSupportSkip (subset_name : String)
  | built (subset_name : String)
  | failed (subset_name : String)
deriving DecidableEq

/-- The subset name carried by a job outcome (every return message of
`_process_single_subset` names its subset). -/
def JobResult.name : JobResult → String
  | JobResult.emptySkip n => n
  | JobResult.noSupportSkip n => n
  | JobResult.built n => n
  | JobResult.failed n => n

/-- The message string `_process_single_subset` returns for each outcome
(the coverage percentages and the appended exception text of the failure
message are print formatting of values shown elsewhere and are elided). -/
def jobMessage : JobResult → String
  | JobResult.emptySkip n => "跳过空子集 " ++ n
  | JobResult.noSupportSkip n => "跳过无支持字符的子集 " ++ n
  | JobResult.built n => "生成子集 " ++ n
  | JobResult.failed n => "处理子集 " ++ n ++ " 失败"

/-- `FontService._process_single_subset` (src/font_service.py lines
193-255): parse the subset's range, return early on an empty request or an
empty intersection with the font's supported set, otherwise run the external
subsetting with one relaxed retry inside a catch-all; only `built` writes
the artifact.  The function catches every exception and returns a message,
so its embedding is total. -/
def _process_single_subset (env : BuildEnv) (t : SubsetTask) : JobResult :=
  if parse_unicode_range t.subset = ∅ then JobResult.emptySkip t.subset_name
  else if parse_unicode_range t.subset ∩ env.supported = ∅ then
    JobResult.noSupportSkip t.subset_name
  else if !env.loadOk t.subset_name then JobResult.failed t.subset_name
  else if env.subOk1 t.subset_name || env.subOk2 t.subset_name then
    if env.saveOk t.subset_name then JobResult.built t.subset_name
    else JobResult.failed t.subset_name
  else JobResult.failed t.subset_name

/-- The build phase of `create_subset` (lines 146-164): the queued tasks run
on the pool, each independently, and the successfully built artifacts are
saved under their cache keys.  Completion order is nondeterministic, so the
cache is a set; job outcomes are printed, never returned. -/
def buildPhase (env : BuildEnv) (st : FSState) (tasks : List SubsetTask) : FSState :=
  tasks.foldl
    (fun s t =>
      match _process_single_subset env t with
      | JobResult.built _ => writeCache s (t.woff2_file_name ++ ".woff2")
      | _ => s)
    st

/-- The build phase together with pool construction: the pool is only
created when there is at least one task (`if tasks:`), and its construction
fails when the computed worker count is zero. -/
def buildPhaseE (env : BuildEnv) (st : FSState) (tasks : List SubsetTask) :
    Except PyExc FSState :=
  if tasks.isEmpty then Except.ok st
  else (process_pool_init (num_cores env.cpuCount)).map (fun _ => buildPhase env st tasks)

/-- Python value of the variable `actual_set` in the metadata phase: a set
on the non-empty branch, the float `0.0` on the empty branch
(src/font_service.py line 180). -/
inductive PySetOrFloat where
  | pyset (s : Finset ℕ)
  | pyfloat (q : ℚ)

/-- Python `len` as applied to `actual_set`: defined on a set, raises
`TypeError` on a float. -/
def pyLen : PySetOrFloat → Except PyExc ℕ
  | PySetOrFloat.pyset s => Except.ok s.card
  | PySetOrFloat.pyfloat _ =>
    Except.error (PyExc.typeError "object of type 'float' has no len()")

/-- Exact value of the Python float division `len(actual) / len(requested)`. -/
def pyFloatDiv (a b : ℕ) : ℚ := (a : ℚ) / (b : ℚ)

/-- One iteration body of the metadata-generation loop of `create_subset`
(src/font_service.py lines 173-191): recompute the coverage and build the
record dictionary.  On the empty-requested branch `actual_set` is the float
`0.0`, so the later `len(actual_set)` raises `TypeError`. -/
def computeRecord (env : BuildEnv) (fam spec name fn : String) :
    Except PyExc MetaData :=
  let requested := parse_unicode_range spec
  let ac : PySetOrFloat × ℚ :=
    if requested ≠ ∅ then
      let actual := requested ∩ env.supported
      (PySetOrFloat.pyset actual, pyFloatDiv actual.card requested.card)
    else (PySetOrFloat.pyfloat 0, 0)
  (pyLen ac.1).map (fun sc =>
    { font_family := fam
      subset_range := spec
      woff2_file_name := fn ++ ".woff2"
      subset := name
      coverage := ac.2
      supported_chars := sc })

/-- One iteration of the metadata-generation loop: skip when the record file
is already present (and no force), otherwise compute and write the record. -/
def metaStep (env : BuildEnv) (fam : String) (force : Bool) (s : FSState)
    (e : String × String) : Except PyExc FSState :=
  if skip_decision s fam (get_subset_cache_key env fam e.1) force then Except.ok s
  else
    (computeRecord env fam e.2 e.1 (get_subset_cache_key env fam e.1)).map
      (fun r => writeMeta s fam (get_subset_cache_key env fam e.1 ++ ".json") r)

/-- The metadata-generation phase of `create_subset` (lines 166-191):
single-threaded loop over the subset table, writing a record for every
subset whose metadata file is missing (or for all when forced). -/
def metadataPhase (env : BuildEnv) (fam : String) (st : FSState) (force : Bool) :
    Except PyExc FSState :=
  (subsetEntries env).foldlM (metaStep env fam force) st

/-- The value a Python function without a return statement hands back. -/
inductive PyRet where
  | noneVal
deriving DecidableEq

/-- Python `str.removesuffix`. -/
def removesuffixChars (l suf : List Char) : List Char :=
  if suf ≠ [] ∧ suf.isSuffixOf l then l.take (l.length - suf.length) else l

/-- Derivation of the family name from the font file name
(src/font_service.py lines 115-116). -/
def font_family_of (fontFileName : String) : String :=
  String.mk (removesuffixChars (removesuffixChars fontFileName.toList ".ttf".toList) ".otf".toList)

/-- `FontService.create_subset` (src/font_service.py lines 112-191): select
the tasks whose metadata file is missing (or all when forced), run them on
the worker pool, then run the metadata-generation phase.  The Python
function returns `None`; outcomes reach the caller only through stdout. -/
def create_subset (env : BuildEnv) (st : FSState) (fontFileName : String)
    (force_rebuild : Bool) : Except PyExc (PyRet × FSState) :=
  (buildPhaseE env st (taskList env (font_family_of fontFileName) st force_rebuild)).bind
    (fun st1 =>
      (metadataPhase env (font_family_of fontFileName) st1 force_rebuild).map
        (fun st2 => (PyRet.noneVal, st2)))

/-! ## CSS synthesis and the stylesheet handler (src/server.py) -/

/-- Lexicographic comparison of two Python strings by code point, the order
used by `list.sort()` on strings. -/
def lexLe : List Char → List Char → Bool
  | [], _ => true
  | _ :: _, [] => false
  | a :: as, b :: bs =>
    if a.toNat < b.toNat then true
    else if b.toNat < a.toNat then false
    else lexLe as bs

/-- Insertion into a sorted list, for modelling `list.sort()`. -/
def insertSorted (s : String) : List String → List String
  | [] => [s]
  | t :: r => if lexLe s.toList t.toList then s :: t :: r else t :: insertSorted s r

/-- Python `list.sort()` on strings. -/
def sortStrings (l : List String) : List String :=
  l.foldr insertSorted []

/-- Python `'italic' in variant`. -/
def italicChars : List Char := ['i', 't', 'a', 'l', 'i', 'c']

/-- Containment of a fixed non-empty pattern in a character list. -/
def containsSeq (pat : List Char) : List Char → Bool
  | [] => false
  | c :: rest => pat.isPrefixOf (c :: rest) || containsSeq pat rest

/-- Python `variant.replace('italic', '')`: remove every occurrence of the
pattern, scanning left to right. -/
def removeItalic : List Char → List Char
  | 'i' :: 't' :: 'a' :: 'l' :: 'i' :: 'c' :: rest => removeItalic rest
  | c :: rest => c :: removeItalic rest
  | [] => []

/-- `'italic' in variant` on strings. -/
def containsItalic (v : String) : Bool := containsSeq italicChars v.toList

/-- `variant.replace('italic', '') or '400'` (src/server.py line 69). -/
def italicWeight (v : String) : String :=
  let w := String.mk (removeItalic v.toList)
  if w = "" then "400" else w

/-- One `@font-face` rule as produced by the dedented f-string template of
`_generate_css` (src/server.py lines 81-91). -/
def ruleText (subsetIdx fontName style weight fontUrl unicodeRange display : String) :
    String :=
  "\n/* [" ++ subsetIdx ++ "] */\n@font-face \x7b\n    font-family: \x27" ++ fontName ++
    "\x27;\n    font-style: " ++ style ++ ";\n    font-weight: " ++ weight ++
    ";\n    src: url(\x27" ++ fontUrl ++ "\x27) format(\x27woff2\x27);\n    unicode-range: " ++
    unicodeRange ++ ";\n    font-display: " ++ display ++ ";\n\x7d\n"

/-- The inner loop of `_generate_css` over a family's metadata records
(src/server.py lines 74-91): records with non-positive coverage are skipped,
every other record yields one rule whose URL is `/s/` plus the record's
artifact file name and whose unicode-range is the record's original range
spec.  The records read from disk always carry a `coverage` field, so the
`meta_data.get("coverage", 1.0)` default never fires. -/
def rulesForMetas (fontName style weight display : String) :
    List MetaData → List String
  | [] => []
  | m :: rest =>
    if m.coverage ≤ 0 then rulesForMetas fontName style weight display rest
    else
      ruleText m.subset fontName style weight ("/s/" ++ m.woff2_file_name)
          m.subset_range display :: rulesForMetas fontName style weight display rest

/-- The variant loop of `_generate_css` (src/server.py lines 66-91),
threading the `style` variable: it is set to italic by a variant containing
the marker and never reset, so it persists for the remaining variants of
the same spec. -/
def variantLoop (lookup : String → List MetaData) (fontName display : String) :
    String → List String → List String
  | _, [] => []
  | style, v :: vs =>
    if containsItalic v then
      rulesForMetas fontName "italic" (italicWeight v) display (lookup fontName) ++
        variantLoop lookup fontName display "italic" vs
    else
      rulesForMetas fontName style v display (lookup fontName) ++
        variantLoop lookup fontName display style vs

/-- The per-variant (style, weight) resolution performed by the loop above,
isolated from rule emission: the first component threads the sticky style
state. -/
def resolveVariants : String → List String → List (String × String)
  | _, [] => []
  | style, v :: vs =>
    if containsItalic v then ("italic", italicWeight v) :: resolveVariants "italic" vs
    else (style, v) :: resolveVariants style vs

/-- `font_spec.split(':')[0]` of src/server.py line 61-62. -/
def specName (spec : String) : String :=
  String.mk ((pySplitBy ':' spec.toList).headD [])

/-- `parts[1].split(',') if len(parts) > 1 else ['400']` (line 63). -/
def specVariants (spec : String) : List String :=
  match (pySplitBy ':' spec.toList).drop 1 with
  | [] => ["400"]
  | v :: _ => (pySplitBy ',' v).map String.mk

/-- The rules contributed by one family spec. -/
def specRules (lookup : String → List MetaData) (display spec : String) :
    List String :=
  variantLoop lookup (specName spec) display "normal" (specVariants spec)

/-- `_generate_css` (src/server.py lines 56-93) over the family specs in
iteration order; `lookup` models `font_service.get_meta_data` (the parsed
records of a family's metadata directory, memoised per family). -/
def _generate_css (lookup : String → List MetaData) (fams : List String)
    (display : String) : String :=
  String.intercalate "\n" (fams.flatMap (specRules lookup display))

/-- Outcome of `handle_css`, as far as the claims are concerned: the
client-error response (status 400), a CSS response (status 200), or the
server-error response (status 500) for a synthesis exception. -/
inductive CssResponse where
  | badRequest
  | okCss (body : String)
  | serverError (msg : String)
deriving DecidableEq

/-- `handle_css` (src/server.py lines 95-110): split the `family` query
parameter (default `""`, `+` replaced by spaces) on `|`, sort, deduplicate
into a set, and return 400 only if that set is empty; otherwise synthesize.
The frozenset iterates in a hash-dependent order; the embedding fixes the
sorted deduplicated order, on which no claim depends.  The embedded
synthesizer is total, so the exception branch (status 500) is not reachable
here; the constructor is kept for the response shape. -/
def handle_css (lookup : String → List MetaData)
    (familyParam displayParam : Option String) : CssResponse :=
  let raw := (familyParam.getD "").toList.map (fun c => if c == '+' then ' ' else c)
  let fl := (pySplitBy '|' raw).map String.mk
  let fams := (sortStrings fl).dedup
  let display := displayParam.getD "swap"
  if fams.isEmpty then CssResponse.badRequest
  else CssResponse.okCss (_generate_css lookup fams display)

/-! ## Concrete instances for evaluation -/

/-- A one-subset environment for concrete runs: identity in place of the md5
digest (any digest function works in the general theorems), the single range
spec `U+0041`, eight CPUs, a font supporting `A`, and external calls that
all succeed. -/
def demoEnv : BuildEnv :=
  { md5hex := fun s => s
    SUBSET := ["U+0041"]
    cpuCount := 8
    supported := {65}
    loadOk := fun _ => true
    subOk1 := fun _ => true
    subOk2 := fun _ => true
    saveOk := fun _ => true }

/-- A pre-existing metadata record used as file content in counterexample
states. -/
def demoRecord : MetaData :=
  { font_family := "Demo"
    subset_range := "U+0041"
    woff2_file_name := "Demo:0.woff2"
    subset := "0"
    coverage := 1
    supported_chars := 1 }

/-- The record `create_subset demoEnv` writes for its single subset. -/
def demoBuiltRecord : MetaData :=
  { font_family := "Demo"
    subset_range := "U+0041"
    woff2_file_name := "Demo:0.woff2"
    subset := "0"
    coverage := pyFloatDiv 1 1
    supported_chars := 1 }

/-- The state after a completed `create_subset demoEnv ⟨∅, []⟩ "Demo.ttf"`. -/
def demoBuiltState : FSState :=
  { cache := {"Demo:0.woff2"}
    meta := [("Demo", "Demo:0.json", demoBuiltRecord)] }

/-- Two subsets over a font supporting `A` and `B`; the external subsetting
fails (first attempt and relaxed retry) for subset `0` only. -/
def envFail : BuildEnv :=
  { md5hex := fun s => s
    SUBSET := ["U+0041", "U+0042"]
    cpuCount := 8
    supported := {65, 66}
    loadOk := fun _ => true
    subOk1 := fun n => !(n == "0")
    subOk2 := fun n => !(n == "0")
    saveOk := fun _ => true }

/-- Metadata record for subset 0 of `envFail` (written by the metadata phase
even though the build job failed). -/
def failRecord0 : MetaData :=
  { font_family := "Demo"
    subset_range := "U+0041"
    woff2_file_name := "Demo:0.woff2"
    subset := "0"
    coverage := pyFloatDiv 1 1
    supported_chars := 1 }

/-- Metadata record for subset 1 of `envFail`. -/
def failRecord1 : MetaData :=
  { font_family := "Demo"
    subset_range := "U+0042"
    woff2_file_name := "Demo:1.woff2"
    subset := "1"
    coverage := pyFloatDiv 1 1
    supported_chars := 1 }

/-- The state after `create_subset envFail ⟨∅, []⟩ "Demo.ttf" false`: only
the sibling's artifact exists, both metadata records do. -/
def failState : FSState :=
  { cache := {"Demo:1.woff2"}
    meta := [("Demo", "Demo:0.json", failRecord0), ("Demo", "Demo:1.json", failRecord1)] }

/-- Environment whose single configured range spec parses to the empty set. -/
def envEmptySpec : BuildEnv :=
  { md5hex := fun s => s
    SUBSET := [""]
    cpuCount := 8
    supported := {65}
    loadOk := fun _ => true
    subOk1 := fun _ => true
    subOk2 := fun _ => true
    saveOk := fun _ => true }

/-- The demo environment on a two-CPU host. -/
def envLowCpu : BuildEnv :=
  { md5hex := fun s => s
    SUBSET := ["U+0041"]
    cpuCount := 2
    supported := {65}
    loadOk := fun _ => true
    subOk1 := fun _ => true
    subOk2 := fun _ => true
    saveOk := fun _ => true }

/-- Environment identical to `envIsoB` at subset name `"0"` but with all
subsetting calls succeeding. -/
def envIsoA : BuildEnv :=
  { md5hex := fun s => s
    SUBSET := ["U+0041", "U+0042"]
    cpuCount := 8
    supported := {65, 66}
    loadOk := fun _ => true
    subOk1 := fun _ => true
    subOk2 := fun _ => true
    saveOk := fun _ => true }

/-- Environment in which subset `"1"` (a sibling) fails to subset. -/
def envIsoB : BuildEnv :=
  { md5hex := fun s => s
    SUBSET := ["U+0041", "U+0042"]
    cpuCount := 8
    supported := {65, 66}
    loadOk := fun _ => true
    subOk1 := fun n => !(n == "1")
    subOk2 := fun n => !(n == "1")
    saveOk := fun _ => true }

/-! ## Character-level lemmas -/

theorem char_ofNat_toNat (n : ℕ) (h : n < 55296) : (Char.ofNat n).toNat = n := by
  simp [Char.ofNat, Nat.isValidChar, h, Char.ofNatAux, Char.toNat]
  rfl

theorem upperChar_toNat_of_lower (c : Char) (h : 97 ≤ c.toNat ∧ c.toNat ≤ 122) :
    (upperChar c).toNat = c.toNat - 32 := by
  unfold upperChar
  rw [if_pos h]
  exact char_ofNat_toNat _ (by omega)

theorem upperChar_eq_self_of_not_lower (c : Char)
    (h : ¬(97 ≤ c.toNat ∧ c.toNat ≤ 122)) : upperChar c = c := by
  unfold upperChar
  rw [if_neg h]

theorem hexDigitVal_upperChar (c : Char) :
    hexDigitVal (upperChar c) = hexDigitVal c := by
  by_cases h : 97 ≤ c.toNat ∧ c.toNat ≤ 122
  · have ht : (upperChar c).toNat = c.toNat - 32 := upperChar_toNat_of_lower c h
    unfold hexDigitVal
    rw [ht]
    by_cases h2 : 97 ≤ c.toNat ∧ c.toNat ≤ 102
    · rw [if_neg (by omega : ¬(48 ≤ c.toNat - 32 ∧ c.toNat - 32 ≤ 57)),
        if_pos (by omega : 65 ≤ c.toNat - 32 ∧ c.toNat - 32 ≤ 70),
        if_neg (by omega : ¬(48 ≤ c.toNat ∧ c.toNat ≤ 57)),
        if_neg (by omega : ¬(65 ≤ c.toNat ∧ c.toNat ≤ 70)), if_pos h2]
      simp only [Option.some.injEq]
      omega
    · rw [if_neg (by omega : ¬(48 ≤ c.toNat - 32 ∧ c.toNat - 32 ≤ 57)),
        if_neg (by omega : ¬(65 ≤ c.toNat - 32 ∧ c.toNat - 32 ≤ 70)),
        if_neg (by omega : ¬(97 ≤ c.toNat - 32 ∧ c.toNat - 32 ≤ 102)),
        if_neg (by omega : ¬(48 ≤ c.toNat ∧ c.toNat ≤ 57)),
        if_neg (by omega : ¬(65 ≤ c.toNat ∧ c.toNat ≤ 70)), if_neg h2]
  · rw [upperChar_eq_self_of_not_lower c h]

theorem upperChar_idem (c : Char) : upperChar (upperChar c) = upperChar c := by
  by_cases h : 97 ≤ c.toNat ∧ c.toNat ≤ 122
  · have ht : (upperChar c).toNat = c.toNat - 32 := upperChar_toNat_of_lower c h
    apply upperChar_eq_self_of_not_lower
    omega
  · rw [upperChar_eq_self_of_not_lower c h, upperChar_eq_self_of_not_lower c h]

theorem toNat_inj_char {c d : Char} (h : c = d) : c.toNat = d.toNat := by
  rw [h]

theorem beq_false_of_toNat_ne {c d : Char} (h : c.toNat ≠ d.toNat) :
    (c == d) = false := by
  rw [Bool.eq_false_iff]
  intro hb
  exact h (toNat_inj_char (beq_iff_eq.mp hb))

theorem upperChar_beq_low (c d : Char) (hd : d.toNat < 65) :
    (upperChar c == d) = (c == d) := by
  by_cases h : 97 ≤ c.toNat ∧ c.toNat ≤ 122
  · have ht : (upperChar c).toNat = c.toNat - 32 := upperChar_toNat_of_lower c h
    rw [beq_false_of_toNat_ne (by omega), beq_false_of_toNat_ne (by omega)]
  · rw [upperChar_eq_self_of_not_lower c h]

theorem upperChar_beq_dash (c : Char) : (upperChar c == '-') = (c == '-') :=
  upperChar_beq_low c '-' (by decide)

theorem upperChar_beq_comma (c : Char) : (upperChar c == ',') = (c == ',') :=
  upperChar_beq_low c ',' (by decide)

theorem isPySpace_upperChar (c : Char) : isPySpace (upperChar c) = isPySpace c := by
  by_cases h : 97 ≤ c.toNat ∧ c.toNat ≤ 122
  · have ht : (upperChar c).toNat = c.toNat - 32 := upperChar_toNat_of_lower c h
    unfold isPySpace
    rw [ht]
    simp only [decide_eq_decide]
    omega
  · rw [upperChar_eq_self_of_not_lower c h]

theorem hexDigitVal_isSome_range {c : Char} (h : (hexDigitVal c).isSome = true) :
    48 ≤ c.toNat ∧ c.toNat ≤ 102 := by
  unfold hexDigitVal at h
  split_ifs at h <;> simp_all <;> omega

/-! ## Parser lemmas -/

theorem hexStep_upperChar (acc : Option ℕ) (c : Char) :
    hexStep acc (upperChar c) = hexStep acc c := by
  unfold hexStep
  rw [hexDigitVal_upperChar]

theorem pyIntHex_pyUpper (l : List Char) : pyIntHex (pyUpper l) = pyIntHex l := by
  unfold pyIntHex pyUpper
  have he : (List.map upperChar l).isEmpty = l.isEmpty := by
    cases l <;> rfl
  have hf : (fun acc c => hexStep acc (upperChar c)) = hexStep := by
    funext acc c
    exact hexStep_upperChar acc c
  rw [he, List.foldl_map, hf]

theorem foldl_hexStep_none (l : List Char) : l.foldl hexStep none = none := by
  induction l with
  | nil => rfl
  | cons c rest ih =>
    have h : hexStep none c = none := by
      unfold hexStep
      cases hexDigitVal c <;> rfl
    rw [List.foldl_cons, h, ih]

theorem foldl_hexStep_some_all_hex (l : List Char) :
    ∀ (a v : ℕ), l.foldl hexStep (some a) = some v →
      ∀ c ∈ l, (hexDigitVal c).isSome = true := by
  induction l with
  | nil => intro a v _ c hc; cases hc
  | cons c rest ih =>
    intro a v hfold d hd
    rw [List.foldl_cons] at hfold
    cases hx : hexDigitVal c with
    | none =>
      have h : hexStep (some a) c = none := by
        unfold hexStep
        rw [hx]
      rw [h, foldl_hexStep_none] at hfold
      cases hfold
    | some dv =>
      have h : hexStep (some a) c = some (16 * a + dv) := by
        unfold hexStep
        rw [hx]
      rw [h] at hfold
      rcases List.mem_cons.mp hd with hdc | hdr
      · subst hdc
        rw [hx]
        rfl
      · exact ih _ _ hfold d hdr

theorem pyIntHex_some_all_hex {l : List Char} {v : ℕ} (h : pyIntHex l = some v) :
    ∀ c ∈ l, (hexDigitVal c).isSome = true := by
  unfold pyIntHex at h
  by_cases he : l.isEmpty
  · rw [if_pos he] at h
    cases h
  · rw [if_neg he] at h
    exact foldl_hexStep_some_all_hex l 0 v h

theorem hex_not_dash {c : Char} (h : (hexDigitVal c).isSome = true) :
    (c == '-') = false := by
  have hr := hexDigitVal_isSome_range h
  have hd : ('-' : Char).toNat = 45 := rfl
  exact beq_false_of_toNat_ne (by omega)

theorem hex_not_comma {c : Char} (h : (hexDigitVal c).isSome = true) :
    (c == ',') = false := by
  have hr := hexDigitVal_isSome_range h
  have hd : (',' : Char).toNat = 44 := rfl
  exact beq_false_of_toNat_ne (by omega)

theorem hex_not_space {c : Char} (h : (hexDigitVal c).isSome = true) :
    isPySpace c = false := by
  have hr := hexDigitVal_isSome_range h
  unfold isPySpace
  simp only [decide_eq_false_iff_not]
  omega

theorem pySplitBy_eq_single (sep : Char) (l : List Char)
    (h : ∀ c ∈ l, (c == sep) = false) : pySplitBy sep l = [l] := by
  induction l with
  | nil => rfl
  | cons c rest ih =>
    have hc := h c (List.mem_cons_self c rest)
    have hrest : pySplitBy sep rest = [rest] :=
      ih (fun x hx => h x (List.mem_cons_of_mem c hx))
    unfold pySplitBy
    rw [hc, hrest]
    rfl

theorem dropWhile_eq_self_of_forall {α : Type} (p : α → Bool) (l : List α)
    (h : ∀ c ∈ l, p c = false) : l.dropWhile p = l := by
  cases l with
  | nil => rfl
  | cons c rest =>
    rw [List.dropWhile_cons, h c (List.mem_cons_self c rest)]
    simp

theorem pyStrip_eq_self (l : List Char) (h : ∀ c ∈ l, isPySpace c = false) :
    pyStrip l = l := by
  unfold pyStrip
  rw [dropWhile_eq_self_of_forall _ _ h,
    dropWhile_eq_self_of_forall _ _ (fun c hc => h c (List.mem_reverse.mp hc)),
    List.reverse_reverse]

theorem takeBeforeDash_append (a b : List Char)
    (h : ∀ c ∈ a, (c == '-') = false) : takeBeforeDash (a ++ '-' :: b) = a := by
  unfold takeBeforeDash
  induction a with
  | nil => simp
  | cons c rest ih =>
    rw [List.cons_append, List.takeWhile_cons, h c (List.mem_cons_self c rest)]
    simp only [Bool.not_false, if_true]
    rw [ih (fun x hx => h x (List.mem_cons_of_mem c hx))]

theorem afterFirstDash_append (a b : List Char)
    (h : ∀ c ∈ a, (c == '-') = false) : afterFirstDash (a ++ '-' :: b) = b := by
  unfold afterFirstDash
  induction a with
  | nil => simp
  | cons c rest ih =>
    rw [List.cons_append, List.dropWhile_cons, h c (List.mem_cons_self c rest)]
    simp only [Bool.not_false, if_true]
    exact ih (fun x hx => h x (List.mem_cons_of_mem c hx))

theorem parsePartsChars_acc (ps : List (List Char)) (acc : Finset ℕ) :
    ps.foldl (fun a p => if p.isEmpty then a else a ∪ parsePartChars p) acc
      = acc ∪ parsePartsChars ps := by
  induction ps generalizing acc with
  | nil => simp [parsePartsChars]
  | cons p ps ih =>
    show ps.foldl _ (if p.isEmpty then acc else acc ∪ parsePartChars p) = _
    rw [ih]
    have hp : parsePartsChars (p :: ps) =
        ps.foldl (fun a q => if q.isEmpty then a else a ∪ parsePartChars q)
          (if p.isEmpty then ∅ else ∅ ∪ parsePartChars p) := rfl
    rw [hp, ih]
    by_cases he : p.isEmpty <;> simp [he, Finset.union_assoc]

theorem parsePartsChars_cons (p : List Char) (ps : List (List Char)) :
    parsePartsChars (p :: ps) =
      (if p.isEmpty then ∅ else parsePartChars p) ∪ parsePartsChars ps := by
  have hp : parsePartsChars (p :: ps) =
      ps.foldl (fun a q => if q.isEmpty then a else a ∪ parsePartChars q)
        (if p.isEmpty then ∅ else ∅ ∪ parsePartChars p) := rfl
  rw [hp, parsePartsChars_acc]
  by_cases he : p.isEmpty <;> simp [he]

theorem parsePartsChars_perm (ps qs : List (List Char)) (h : ps.Perm qs) :
    parsePartsChars ps = parsePartsChars qs := by
  induction h with
  | nil => rfl
  | cons x _ ih => rw [parsePartsChars_cons, parsePartsChars_cons, ih]
  | swap x y l =>
    rw [parsePartsChars_cons, parsePartsChars_cons,
      parsePartsChars_cons, parsePartsChars_cons,
      ← Finset.union_assoc, ← Finset.union_assoc,
      Finset.union_comm (if y.isEmpty then ∅ else parsePartChars y)]
  | trans _ _ ih1 ih2 => rw [ih1, ih2]

theorem parsePartsChars_append (ps qs : List (List Char)) :
    parsePartsChars (ps ++ qs) = parsePartsChars ps ∪ parsePartsChars qs := by
  induction ps with
  | nil =>
    rw [List.nil_append,
      show parsePartsChars ([] : List (List Char)) = ∅ from rfl,
      Finset.empty_union]
  | cons p ps ih =>
    rw [List.cons_append, parsePartsChars_cons, parsePartsChars_cons, ih,
      Finset.union_assoc]

theorem pyUpper_token (u : Char) (h : List Char) (hu : u = 'U' ∨ u = 'u') :
    pyUpper (u :: '+' :: h) = 'U' :: '+' :: pyUpper h := by
  unfold pyUpper
  rw [List.map_cons, List.map_cons]
  have h1 : upperChar u = 'U' := by
    rcases hu with rfl | rfl <;> decide
  have h2 : upperChar '+' = '+' := by decide
  rw [h1, h2]

theorem token_no_space (u : Char) (h : List Char) (hu : u = 'U' ∨ u = 'u')
    (hall : ∀ c ∈ h, (hexDigitVal c).isSome = true) :
    ∀ c ∈ u :: '+' :: h, isPySpace c = false := by
  intro c hc
  rcases List.mem_cons.mp hc with hcu | hc2
  · subst hcu
    rcases hu with rfl | rfl <;> decide
  · rcases List.mem_cons.mp hc2 with hcp | hch
    · subst hcp
      decide
    · exact hex_not_space (hall c hch)

theorem token_no_comma (u : Char) (h : List Char) (hu : u = 'U' ∨ u = 'u')
    (hall : ∀ c ∈ h, (hexDigitVal c).isSome = true) :
    ∀ c ∈ u :: '+' :: h, (c == ',') = false := by
  intro c hc
  rcases List.mem_cons.mp hc with hcu | hc2
  · subst hcu
    rcases hu with rfl | rfl <;> decide
  · rcases List.mem_cons.mp hc2 with hcp | hch
    · subst hcp
      decide
    · exact hex_not_comma (hall c hch)

theorem token_no_dash (u : Char) (h : List Char) (hu : u = 'U' ∨ u = 'u')
    (hall : ∀ c ∈ h, (hexDigitVal c).isSome = true) :
    ∀ c ∈ u :: '+' :: h, (c == '-') = false := by
  intro c hc
  rcases List.mem_cons.mp hc with hcu | hc2
  · subst hcu
    rcases hu with rfl | rfl <;> decide
  · rcases List.mem_cons.mp hc2 with hcp | hch
    · subst hcp
      decide
    · exact hex_not_dash (hall c hch)

theorem parsePartChars_single (u : Char) (h : List Char) (v : ℕ)
    (hu : u = 'U' ∨ u = 'u') (hv : pyIntHex h = some v) :
    parsePartChars (u :: '+' :: h) = {v} := by
  have hall := pyIntHex_some_all_hex hv
  have hnodash : containsChar '-' (u :: '+' :: h) = false := by
    unfold containsChar
    rw [List.any_eq_false]
    intro c hc
    rw [token_no_dash u h hu hall c hc]
    simp
  unfold parsePartChars
  rw [hnodash]
  rw [if_neg Bool.false_ne_true]
  rw [pyStrip_eq_self _ (token_no_space u h hu hall), pyUpper_token u h hu]
  have hdrop : dropUPlus ('U' :: '+' :: pyUpper h) = pyUpper h := rfl
  rw [hdrop, pyIntHex_pyUpper, hv]

theorem dropUPlus_eq_self (l : List Char) (h : ∀ rest, l ≠ 'U' :: '+' :: rest) :
    dropUPlus l = l := by
  unfold dropUPlus
  split
  · rename_i rest
    exact absurd rfl (h rest)
  · rfl

theorem parsePartChars_range (u : Char) (h1 h2 : List Char) (a b : ℕ)
    (hu : u = 'U' ∨ u = 'u') (ha : pyIntHex h1 = some a) (hb : pyIntHex h2 = some b) :
    parsePartChars (u :: '+' :: h1 ++ '-' :: h2) = Finset.Icc a b := by
  have hall1 := pyIntHex_some_all_hex ha
  have hall2 := pyIntHex_some_all_hex hb
  have hdash : containsChar '-' (u :: '+' :: h1 ++ '-' :: h2) = true := by
    unfold containsChar
    rw [List.any_eq_true]
    refine ⟨'-', ?_, by decide⟩
    simp
  have hre : u :: '+' :: h1 ++ '-' :: h2 = (u :: '+' :: h1) ++ '-' :: h2 := rfl
  unfold parsePartChars
  rw [hdash, if_pos rfl, hre,
    takeBeforeDash_append _ _ (token_no_dash u h1 hu hall1),
    afterFirstDash_append _ _ (token_no_dash u h1 hu hall1),
    pyStrip_eq_self _ (token_no_space u h1 hu hall1),
    pyStrip_eq_self _ (fun c hc => hex_not_space (hall2 c hc)),
    pyUpper_token u h1 hu]
  have hdropA : dropUPlus ('U' :: '+' :: pyUpper h1) = pyUpper h1 := rfl
  have hdropB : dropUPlus (pyUpper h2) = pyUpper h2 := by
    apply dropUPlus_eq_self
    intro rest hcontra
    cases h2 with
    | nil => exact absurd hcontra (by simp [pyUpper])
    | cons c t =>
      have hcU : upperChar c = 'U' := by
        have := congrArg List.head? hcontra
        simpa [pyUpper] using this
      have hhex := hall2 c (List.mem_cons_self c t)
      rw [← hexDigitVal_upperChar, hcU] at hhex
      exact absurd hhex (by decide)
  rw [hdropA, hdropB, pyIntHex_pyUpper, pyIntHex_pyUpper, ha, hb]

theorem parseChars_single_part (l : List Char) (hl : l ≠ [])
    (hnc : ∀ c ∈ l, (c == ',') = false) (hns : ∀ c ∈ l, isPySpace c = false) :
    parseChars l = parsePartChars l := by
  unfold parseChars
  rw [pySplitBy_eq_single ',' l hnc, List.map_cons, List.map_nil,
    pyStrip_eq_self l hns, parsePartsChars_cons]
  have he : l.isEmpty = false := by
    cases l with
    | nil => exact absurd rfl hl
    | cons c t => rfl
  rw [he]
  show parsePartChars l ∪ parsePartsChars [] = parsePartChars l
  simp [parsePartsChars]

/-! ## Case-insensitivity machinery -/

theorem containsChar_dash_pyUpper (l : List Char) :
    containsChar '-' (pyUpper l) = containsChar '-' l := by
  unfold containsChar pyUpper
  rw [List.any_map]
  congr 1
  funext c
  exact upperChar_beq_dash c

theorem pyStrip_pyUpper (l : List Char) : pyStrip (pyUpper l) = pyUpper (pyStrip l) := by
  unfold pyStrip pyUpper
  have hps : (isPySpace ∘ upperChar) = isPySpace := by
    funext c
    exact isPySpace_upperChar c
  rw [List.dropWhile_map, hps, ← List.map_reverse, List.dropWhile_map, hps,
    ← List.map_reverse]

theorem takeBeforeDash_pyUpper (l : List Char) :
    takeBeforeDash (pyUpper l) = pyUpper (takeBeforeDash l) := by
  unfold takeBeforeDash pyUpper
  rw [List.takeWhile_map]
  have hp : ((fun c => !(c == '-')) ∘ upperChar) = (fun c : Char => !(c == '-')) := by
    funext c
    simp only [Function.comp_apply]
    rw [upperChar_beq_dash]
  rw [hp]

theorem afterFirstDash_pyUpper (l : List Char) :
    afterFirstDash (pyUpper l) = pyUpper (afterFirstDash l) := by
  unfold afterFirstDash pyUpper
  rw [List.dropWhile_map]
  have hp : ((fun c => !(c == '-')) ∘ upperChar) = (fun c : Char => !(c == '-')) := by
    funext c
    simp only [Function.comp_apply]
    rw [upperChar_beq_dash]
  rw [hp, ← List.map_drop]

theorem pyUpper_pyUpper (l : List Char) : pyUpper (pyUpper l) = pyUpper l := by
  unfold pyUpper
  rw [List.map_map]
  congr 1
  funext c
  exact upperChar_idem c

theorem parsePartChars_pyUpper (p : List Char) :
    parsePartChars (pyUpper p) = parsePartChars p := by
  unfold parsePartChars
  rw [containsChar_dash_pyUpper]
  by_cases hd : containsChar '-' p = true
  · rw [if_pos hd, if_pos hd, takeBeforeDash_pyUpper, afterFirstDash_pyUpper,
      pyStrip_pyUpper, pyStrip_pyUpper, pyUpper_pyUpper, pyUpper_pyUpper]
  · rw [if_neg hd, if_neg hd, pyStrip_pyUpper, pyUpper_pyUpper]

theorem pySplitBy_ne_nil (sep : Char) (l : List Char) : pySplitBy sep l ≠ [] := by
  cases l with
  | nil => simp [pySplitBy]
  | cons c rest =>
    unfold pySplitBy
    by_cases hc : (c == sep) = true
    · rw [hc]
      simp
    · rw [Bool.not_eq_true] at hc
      rw [hc]
      cases pySplitBy sep rest <;> simp

theorem pySplitBy_comma_pyUpper (l : List Char) :
    pySplitBy ',' (pyUpper l) = (pySplitBy ',' l).map pyUpper := by
  induction l with
  | nil => rfl
  | cons c rest ih =>
    show pySplitBy ',' (upperChar c :: List.map upperChar rest) = _
    unfold pySplitBy
    rw [upperChar_beq_comma]
    by_cases hc : (c == ',') = true
    · rw [hc]
      show [] :: pySplitBy ',' (pyUpper rest) = _
      rw [ih]
      rfl
    · rw [Bool.not_eq_true] at hc
      rw [hc]
      show (match pySplitBy ',' (pyUpper rest) with
        | [] => [[upperChar c]]
        | h :: t => (upperChar c :: h) :: t) = _
      rw [ih]
      cases hsp : pySplitBy ',' rest with
      | nil => exact absurd hsp (pySplitBy_ne_nil ',' rest)
      | cons h t => rfl

theorem parsePartsChars_map_pyUpper (ps : List (List Char)) :
    parsePartsChars (ps.map pyUpper) = parsePartsChars ps := by
  induction ps with
  | nil => rfl
  | cons p ps ih =>
    rw [List.map_cons, parsePartsChars_cons, parsePartsChars_cons, ih,
      parsePartChars_pyUpper]
    have he : (pyUpper p).isEmpty = p.isEmpty := by cases p <;> rfl
    rw [he]

theorem parseChars_pyUpper (l : List Char) : parseChars (pyUpper l) = parseChars l := by
  unfold parseChars
  rw [pySplitBy_comma_pyUpper, List.map_map]
  have hsp : (pyStrip ∘ pyUpper) = (pyUpper ∘ pyStrip) := by
    funext x
    exact pyStrip_pyUpper x
  rw [hsp, ← List.map_map, parsePartsChars_map_pyUpper]

/-! ## Claim C7 -/

/-- Claim C7: for every well-formed range specification string,
`parse_unicode_range` maps a single token `U+HHHH` (here with any non-empty
hex digit material `h` of value `v`, and either letter case of the marker)
to the singleton of its value, and a token `U+AAAA-BBBB` to the inclusive
range of codepoints from the first bound through the second; tokens
accumulate into a set (so duplicates across tokens collapse), the order of
the tokens does not affect the resulting set (permutation invariance of the
token loop), and neither does the letter case of the input (two inputs with
the same uppercasing parse identically). -/
theorem parse_unicode_range_wellformed_tokens :
    (∀ (u : Char) (h : List Char) (v : ℕ), u = 'U' ∨ u = 'u' →
      pyIntHex h = some v →
      parse_unicode_range (String.mk (u :: '+' :: h)) = {v}) ∧
    (∀ (u : Char) (h1 h2 : List Char) (a b : ℕ), u = 'U' ∨ u = 'u' →
      pyIntHex h1 = some a → pyIntHex h2 = some b →
      parse_unicode_range (String.mk (u :: '+' :: h1 ++ '-' :: h2)) = Finset.Icc a b) ∧
    (∀ ps qs : List (List Char), ps.Perm qs →
      parsePartsChars ps = parsePartsChars qs) ∧
    (∀ s t : String, s.toList.map upperChar = t.toList.map upperChar →
      parse_unicode_range s = parse_unicode_range t) ∧
    (∀ ps qs : List (List Char),
      parsePartsChars (ps ++ qs) = parsePartsChars ps ∪ parsePartsChars qs) := by
  refine ⟨?_, ?_, parsePartsChars_perm, ?_, parsePartsChars_append⟩
  · intro u h v hu hv
    have hall := pyIntHex_some_all_hex hv
    show parseChars (u :: '+' :: h) = {v}
    rw [parseChars_single_part _ (by simp) (token_no_comma u h hu hall)
      (token_no_space u h hu hall)]
    exact parsePartChars_single u h v hu hv
  · intro u h1 h2 a b hu ha hb
    have hall1 := pyIntHex_some_all_hex ha
    have hall2 := pyIntHex_some_all_hex hb
    have hnc : ∀ c ∈ u :: '+' :: h1 ++ '-' :: h2, (c == ',') = false := by
      intro c hc
      rcases List.mem_cons.mp hc with rfl | hc2
      · rcases hu with rfl | rfl <;> decide
      · rcases List.mem_cons.mp hc2 with rfl | hc3
        · decide
        · rcases List.mem_append.mp hc3 with hca | hcb
          · exact hex_not_comma (hall1 c hca)
          · rcases List.mem_cons.mp hcb with rfl | hcd
            · decide
            · exact hex_not_comma (hall2 c hcd)
    have hns : ∀ c ∈ u :: '+' :: h1 ++ '-' :: h2, isPySpace c = false := by
      intro c hc
      rcases List.mem_cons.mp hc with rfl | hc2
      · rcases hu with rfl | rfl <;> decide
      · rcases List.mem_cons.mp hc2 with rfl | hc3
        · decide
        · rcases List.mem_append.mp hc3 with hca | hcb
          · exact hex_not_space (hall1 c hca)
          · rcases List.mem_cons.mp hcb with rfl | hcd
            · decide
            · exact hex_not_space (hall2 c hcd)
    show parseChars (u :: '+' :: h1 ++ '-' :: h2) = Finset.Icc a b
    rw [parseChars_single_part _ (by simp) hnc hns]
    exact parsePartChars_range u h1 h2 a b hu ha hb
  · intro s t hst
    show parseChars s.toList = parseChars t.toList
    rw [← parseChars_pyUpper s.toList, ← parseChars_pyUpper t.toList]
    show parseChars (s.toList.map upperChar) = parseChars (t.toList.map upperChar)
    rw [hst]

/-- Witness for C7: the conjuncts applied at concrete inputs — the token
`U+4E54` parses to the singleton 20052, the token `u+300C-300d` parses to
the inclusive range 12300..12301, swapping two concrete tokens leaves the
result unchanged, `"u+4e54"` parses like `"U+4E54"`, and concatenated token
lists parse to the union (so duplicates across tokens collapse). -/
theorem parse_unicode_range_wellformed_tokens_witness :
    parse_unicode_range (String.mk ['U', '+', '4', 'E', '5', '4']) = {20052} ∧
    parse_unicode_range
      (String.mk ['u', '+', '3', '0', '0', 'C'] ++ String.mk ['-', '3', '0', '0', 'd'])
      = Finset.Icc 12300 12301 ∧
    parsePartsChars [['4', '1'], ['4', '2']] = parsePartsChars [['4', '2'], ['4', '1']] ∧
    parse_unicode_range "u+4e54" = parse_unicode_range "U+4E54" ∧
    parsePartsChars [['4', '1'], ['4', '2']]
      = parsePartsChars [['4', '1']] ∪ parsePartsChars [['4', '2']] := by
  refine ⟨?_, ?_, ?_, ?_, ?_⟩
  · exact parse_unicode_range_wellformed_tokens.1 'U' ['4', 'E', '5', '4'] 20052
      (Or.inl rfl) (by decide)
  · exact parse_unicode_range_wellformed_tokens.2.1 'u' ['3', '0', '0', 'C']
      ['3', '0', '0', 'd'] 12300 12301 (Or.inr rfl) (by decide) (by decide)
  · exact parse_unicode_range_wellformed_tokens.2.2.1 _ _ (by decide)
  · exact parse_unicode_range_wellformed_tokens.2.2.2.1 "u+4e54" "U+4E54" (by decide)
  · exact parse_unicode_range_wellformed_tokens.2.2.2.2 [['4', '1']] [['4', '2']]

/-! ## Claim C8 -/

theorem parsePartCharsE_ok (p : List Char) :
    parsePartCharsE p = Except.ok (parsePartChars p) := by
  unfold parsePartCharsE parsePartChars
  by_cases hd : containsChar '-' p = true
  · rw [if_pos hd, if_pos hd]
    cases h1 : pyIntHex (dropUPlus (pyUpper (pyStrip (takeBeforeDash p)))) with
    | none =>
      simp only [intHexE, h1]
      rfl
    | some a =>
      cases h2 : pyIntHex (dropUPlus (pyUpper (pyStrip (afterFirstDash p)))) with
      | none =>
        simp only [intHexE, h1, h2]
        rfl
      | some b =>
        simp only [intHexE, h1, h2]
        rfl
  · rw [if_neg hd, if_neg hd]
    cases h : pyIntHex (dropUPlus (pyUpper (pyStrip p))) with
    | none =>
      simp only [intHexE, h]
    | some v =>
      simp only [intHexE, h]

theorem foldlM_parts_ok (ps : List (List Char)) (acc : Finset ℕ) :
    ps.foldlM
      (fun a p =>
        if p.isEmpty then Except.ok a
        else (parsePartCharsE p).map (fun r => a ∪ r))
      acc
      = Except.ok
        (ps.foldl (fun a p => if p.isEmpty then a else a ∪ parsePartChars p) acc) := by
  induction ps generalizing acc with
  | nil => rfl
  | cons p ps ih =>
    rw [List.foldlM_cons, List.foldl_cons]
    by_cases hp : p.isEmpty
    · rw [if_pos hp, if_pos hp]
      exact ih acc
    · rw [if_neg hp, if_neg hp, parsePartCharsE_ok]
      exact ih (acc ∪ parsePartChars p)

theorem parsePartsChars_skip (ps qs : List (List Char)) (t : List Char)
    (h : parsePartChars t = ∅) :
    parsePartsChars (ps ++ t :: qs) = parsePartsChars (ps ++ qs) := by
  induction ps with
  | nil =>
    rw [List.nil_append, List.nil_append, parsePartsChars_cons, h]
    by_cases ht : t.isEmpty <;> simp [ht]
  | cons p ps ih =>
    rw [List.cons_append, List.cons_append, parsePartsChars_cons,
      parsePartsChars_cons, ih]

/-- Claim C8: `parse_unicode_range` never raises to its caller — the
exception-explicit rendition `parse_unicode_rangeE`, in which the two
`int(_, 16)` conversions raise `ValueError` and the `try/except` blocks of
the source catch it, returns `Except.ok` of the pure result on every input
string; a token whose contribution is empty (in particular a malformed one,
whose failed hex conversion was caught) is skipped while the surrounding
tokens still parse; and the empty input string yields the empty set. -/
theorem parse_unicode_range_error_policy :
    (∀ s : String, parse_unicode_rangeE s = Except.ok (parse_unicode_range s)) ∧
    (∀ (ps qs : List (List Char)) (t : List Char), parsePartChars t = ∅ →
      parsePartsChars (ps ++ t :: qs) = parsePartsChars (ps ++ qs)) ∧
    parse_unicode_range "" = ∅ := by
  refine ⟨?_, parsePartsChars_skip, by decide⟩
  intro s
  unfold parse_unicode_rangeE parse_unicode_range parseChars parsePartsChars
  exact foldlM_parts_ok _ ∅

/-- Witness for C8: the conjuncts applied concretely — a string with a
malformed middle token still parses (and raises nothing), dropping the
malformed token from the token list does not change the parsed set, and the
empty string parses to the empty set. -/
theorem parse_unicode_range_error_policy_witness :
    parse_unicode_rangeE "U+0041,zz,U+0043"
      = Except.ok (parse_unicode_range "U+0041,zz,U+0043") ∧
    parsePartsChars [['4', '1'], ['z', 'z'], ['4', '3']]
      = parsePartsChars [['4', '1'], ['4', '3']] ∧
    parse_unicode_range "" = ∅ := by
  refine ⟨parse_unicode_range_error_policy.1 _, ?_, parse_unicode_range_error_policy.2.2⟩
  exact parse_unicode_range_error_policy.2.1 [['4', '1']] [['4', '3']] ['z', 'z']
    (by decide)

example : parse_unicode_range "U+0041" = {65} := by decide
example : parse_unicode_range "u+300c-300D" = Finset.Icc 12300 12301 := by decide
example : parse_unicode_range "" = ∅ := by decide
example : parse_unicode_range "U+0041, zz ,U+0043" = {65, 67} := by decide
example : parse_unicode_rangeE "U+0041,zz" = Except.ok {65} := rfl

/-! ## FontService lemmas -/

theorem metaExists_writeMeta_same (st : FSState) (fam fn : String) (r : MetaData) :
    metaExists (writeMeta st fam fn r) fam fn = true := by
  unfold writeMeta
  by_cases hex : metaExists st fam fn
  · rw [if_pos hex]
    unfold metaExists at hex ⊢
    rcases List.any_eq_true.mp hex with ⟨e, he, hpe⟩
    apply List.any_eq_true.mpr
    refine ⟨(fam, fn, r), ?_, by simp⟩
    apply List.mem_map.mpr
    exact ⟨e, he, by simp [hpe]⟩
  · rw [if_neg hex]
    unfold metaExists
    apply List.any_eq_true.mpr
    exact ⟨(fam, fn, r), by simp, by simp⟩

theorem metaExists_writeMeta_mono (st : FSState) (fam fn : String) (r : MetaData)
    (f n : String) (h : metaExists st f n = true) :
    metaExists (writeMeta st fam fn r) f n = true := by
  unfold writeMeta
  by_cases hex : metaExists st fam fn
  · rw [if_pos hex]
    unfold metaExists at h ⊢
    rcases List.any_eq_true.mp h with ⟨e, he, hpe⟩
    apply List.any_eq_true.mpr
    by_cases hm : (e.1 == fam && e.2.1 == fn) = true
    · refine ⟨(fam, fn, r), List.mem_map.mpr ⟨e, he, by simp [hm]⟩, ?_⟩
      rw [Bool.and_eq_true] at hm hpe
      obtain ⟨hm1, hm2⟩ := hm
      obtain ⟨hp1, hp2⟩ := hpe
      rw [beq_iff_eq] at hm1 hm2 hp1 hp2
      simp only [Bool.and_eq_true, beq_iff_eq]
      constructor
      · rw [← hm1, hp1]
      · rw [← hm2, hp2]
    · refine ⟨e, List.mem_map.mpr ⟨e, he, ?_⟩, hpe⟩
      rw [Bool.not_eq_true] at hm
      simp [hm]
  · rw [if_neg hex]
    unfold metaExists at h ⊢
    rcases List.any_eq_true.mp h with ⟨e, he, hpe⟩
    apply List.any_eq_true.mpr
    exact ⟨e, by simp [he], hpe⟩

theorem metaStep_mono (env : BuildEnv) (fam : String) (force : Bool)
    (s s' : FSState) (e : String × String)
    (h : metaStep env fam force s e = Except.ok s') (f n : String)
    (hex : metaExists s f n = true) : metaExists s' f n = true := by
  unfold metaStep at h
  by_cases hskip : skip_decision s fam (get_subset_cache_key env fam e.1) force = true
  · rw [if_pos hskip] at h
    injection h with h
    rw [← h]
    exact hex
  · rw [if_neg hskip] at h
    cases hr : computeRecord env fam e.2 e.1 (get_subset_cache_key env fam e.1) with
    | error ex =>
      rw [hr] at h
      cases h
    | ok r =>
      rw [hr] at h
      injection h with h
      rw [← h]
      exact metaExists_writeMeta_mono s fam _ r f n hex

theorem metaFold_mono (env : BuildEnv) (fam : String) (force : Bool)
    (es : List (String × String)) :
    ∀ (st st' : FSState), es.foldlM (metaStep env fam force) st = Except.ok st' →
      ∀ f n, metaExists st f n = true → metaExists st' f n = true := by
  induction es with
  | nil =>
    intro st st' h f n hex
    injection h with h
    rw [← h]
    exact hex
  | cons e es ih =>
    intro st st' h f n hex
    rw [List.foldlM_cons] at h
    cases hs : metaStep env fam force st e with
    | error ex =>
      rw [hs] at h
      cases h
    | ok s1 =>
      rw [hs] at h
      exact ih s1 st' h f n (metaStep_mono env fam force st s1 e hs f n hex)

theorem metaFold_covers (env : BuildEnv) (fam : String) (force : Bool)
    (es : List (String × String)) :
    ∀ (st st' : FSState), es.foldlM (metaStep env fam force) st = Except.ok st' →
      ∀ e ∈ es, metaExists st' fam (get_subset_cache_key env fam e.1 ++ ".json") = true := by
  induction es with
  | nil =>
    intro st st' _ e he
    cases he
  | cons e es ih =>
    intro st st' h d hd
    rw [List.foldlM_cons] at h
    cases hs : metaStep env fam force st e with
    | error ex =>
      rw [hs] at h
      cases h
    | ok s1 =>
      rw [hs] at h
      rcases List.mem_cons.mp hd with rfl | hdes
      · have hs1 : metaExists s1 fam (get_subset_cache_key env fam d.1 ++ ".json") = true := by
          unfold metaStep at hs
          by_cases hskip : skip_decision st fam (get_subset_cache_key env fam d.1) force = true
          · rw [if_pos hskip] at hs
            injection hs with hs
            rw [← hs]
            unfold skip_decision at hskip
            rw [Bool.and_eq_true] at hskip
            exact hskip.1
          · rw [if_neg hskip] at hs
            cases hr : computeRecord env fam d.2 d.1 (get_subset_cache_key env fam d.1) with
            | error ex =>
              rw [hr] at hs
              cases hs
            | ok r =>
              rw [hr] at hs
              injection hs with hs
              rw [← hs]
              exact metaExists_writeMeta_same st fam _ r
        exact metaFold_mono env fam force es s1 st' h _ _ hs1
      · exact ih s1 st' h d hdes

theorem metaFold_skip_id (env : BuildEnv) (fam : String)
    (es : List (String × String)) (st : FSState)
    (h : ∀ e ∈ es, skip_decision st fam (get_subset_cache_key env fam e.1) false = true) :
    es.foldlM (metaStep env fam false) st = Except.ok st := by
  induction es with
  | nil => rfl
  | cons e es ih =>
    rw [List.foldlM_cons]
    have hstep : metaStep env fam false st e = Except.ok st := by
      unfold metaStep
      rw [if_pos (h e (List.mem_cons_self e es))]
    rw [hstep]
    exact ih (fun d hd => h d (List.mem_cons_of_mem e hd))

theorem taskList_skip_nil (env : BuildEnv) (fam : String) (st : FSState)
    (h : ∀ e ∈ subsetEntries env,
      skip_decision st fam (get_subset_cache_key env fam e.1) false = true) :
    taskList env fam st false = [] := by
  unfold taskList
  apply List.filterMap_eq_nil_iff.mpr
  intro e he
  rw [if_pos (h e he)]

/-! ## Claim C1 -/

/-- Counterexample to claim C1 as stated: with the single configured subset,
no force, and a state whose woff2 cache holds the subset's artifact while
its metadata directory is empty, the build phase does NOT skip — the subset
is queued as a task — although the artifact exists and forceRebuild is
false; conversely a state holding only the metadata record IS skipped
although no artifact exists.  The skip decision reads the metadata file, not
the artifact. -/
theorem skip_decision_artifact_counterexample :
    "Demo:0.woff2" ∈ (FSState.mk {"Demo:0.woff2"} []).cache ∧
    skip_decision (FSState.mk {"Demo:0.woff2"} []) "Demo" "Demo:0" false = false ∧
    taskList demoEnv "Demo" (FSState.mk {"Demo:0.woff2"} []) false
      = [{ subset := "U+0041", subset_name := "0", woff2_file_name := "Demo:0" }] ∧
    skip_decision (FSState.mk ∅ [("Demo", "Demo:0.json", demoRecord)])
      "Demo" "Demo:0" false = true ∧
    "Demo:0.woff2" ∉ (FSState.mk ∅ [("Demo", "Demo:0.json", demoRecord)]).cache ∧
    taskList demoEnv "Demo" (FSState.mk ∅ [("Demo", "Demo:0.json", demoRecord)]) false
      = [] := by
  refine ⟨by decide, by decide, by decide, by decide, by decide, by decide⟩

/-- Claim C1 (amended): the build phase of create_subset decides Skipped
exactly when the subset's METADATA FILE exists and forceRebuild is false;
the decision is a function of the metadata directory alone — replacing the
entire artifact cache leaves it unchanged. -/
theorem skip_decision_metadata_only :
    ∀ (c1 c2 : Finset String) (m : List (String × String × MetaData))
      (fam fn : String) (force : Bool),
      skip_decision (FSState.mk c1 m) fam fn force
        = skip_decision (FSState.mk c2 m) fam fn force ∧
      (skip_decision (FSState.mk c1 m) fam fn force = true ↔
        metaExists (FSState.mk c1 m) fam (fn ++ ".json") = true ∧ force = false) := by
  intro c1 c2 m fam fn force
  constructor
  · rfl
  · unfold skip_decision
    rw [Bool.and_eq_true]
    cases force <;> simp

/-! ## Claim C2 -/

/-- Claim C2: a second `create_subset` call for the same family with
forceRebuild false, after a completed (non-raising) first pass, queues no
task at all — zero subsetting calls — and returns the state unchanged: every
metadata file (and the whole filesystem state) is byte-for-byte what the
first pass left. -/
theorem create_subset_idempotent (env : BuildEnv) (st0 : FSState)
    (fname : String) (force1 : Bool) (st1 : FSState)
    (h : create_subset env st0 fname force1 = Except.ok (PyRet.noneVal, st1)) :
    taskList env (font_family_of fname) st1 false = [] ∧
    create_subset env st1 fname false = Except.ok (PyRet.noneVal, st1) := by
  unfold create_subset at h
  cases hb : buildPhaseE env st0 (taskList env (font_family_of fname) st0 force1) with
  | error e =>
    rw [hb] at h
    cases h
  | ok stb =>
    rw [hb] at h
    simp only [Except.bind] at h
    cases hm : metadataPhase env (font_family_of fname) stb force1 with
    | error e =>
      rw [hm] at h
      cases h
    | ok st2 =>
      rw [hm] at h
      simp only [Except.map] at h
      injection h with h
      have hst : st2 = st1 := congrArg Prod.snd h
      rw [hst] at hm
      have hcov := metaFold_covers env (font_family_of fname) force1
        (subsetEntries env) stb st1 hm
      have hskip : ∀ e ∈ subsetEntries env,
          skip_decision st1 (font_family_of fname)
            (get_subset_cache_key env (font_family_of fname) e.1) false = true := by
        intro e he
        unfold skip_decision
        rw [hcov e he]
        rfl
      have htl : taskList env (font_family_of fname) st1 false = [] :=
        taskList_skip_nil env _ st1 hskip
      refine ⟨htl, ?_⟩
      unfold create_subset
      rw [htl]
      have hbe : buildPhaseE env st1 [] = Except.ok st1 := rfl
      rw [hbe]
      simp only [Except.bind]
      have hmp : metadataPhase env (font_family_of fname) st1 false = Except.ok st1 :=
        metaFold_skip_id env _ (subsetEntries env) st1 hskip
      rw [hmp]
      rfl

/-- Witness for C2: a concrete completed first pass over `demoEnv` from the
empty state, then the theorem applied to it — the second call queues nothing
and returns the unchanged state. -/
theorem create_subset_idempotent_witness :
    create_subset demoEnv (FSState.mk ∅ []) "Demo.ttf" false
      = Except.ok (PyRet.noneVal, demoBuiltState) ∧
    taskList demoEnv (font_family_of "Demo.ttf") demoBuiltState false = [] ∧
    create_subset demoEnv demoBuiltState "Demo.ttf" false
      = Except.ok (PyRet.noneVal, demoBuiltState) := by
  have h : create_subset demoEnv (FSState.mk ∅ []) "Demo.ttf" false
      = Except.ok (PyRet.noneVal, demoBuiltState) := rfl
  have hth := create_subset_idempotent demoEnv (FSState.mk ∅ []) "Demo.ttf" false
    demoBuiltState h
  exact ⟨h, hth.1, hth.2⟩

/-! ## Claim C3 -/

/-- Counterexample to claim C3 as stated: a concrete run in which subset 0's
subsetting fails (first attempt and relaxed retry) while its sibling subset
1 builds.  The job outcomes show one named failure next to one success, the
sibling's artifact is written and the failed subset's is not — yet
`create_subset` returns Python `None` (`PyRet.noneVal`): no report structure
with built/skipped/failed components is returned to the caller; outcomes are
only printed. -/
theorem create_subset_returns_none_counterexample :
    (taskList envFail "Demo" (FSState.mk ∅ []) false).map (_process_single_subset envFail)
      = [JobResult.failed "0", JobResult.built "1"] ∧
    create_subset envFail (FSState.mk ∅ []) "Demo.ttf" false
      = Except.ok (PyRet.noneVal, failState) ∧
    failState.cache = {"Demo:1.woff2"} := by
  refine ⟨by decide, rfl, rfl⟩

/-- Claim C3 (amended): `create_subset` returns no report (see the
counterexample, which exhibits the `None` return); what does hold is the
isolation and naming part of the claim: a job's outcome depends only on its
own task and on the external calls for its own subset name — so a subsetting
failure injected for one subset cannot change any sibling's outcome — every
task yields exactly one terminal outcome, every outcome names its own
subset, and a failure is rendered as the named failure message for that
subset only. -/
theorem subset_failure_isolated :
    (∀ env env' : BuildEnv, ∀ t : SubsetTask,
      env.supported = env'.supported →
      env.loadOk t.subset_name = env'.loadOk t.subset_name →
      env.subOk1 t.subset_name = env'.subOk1 t.subset_name →
      env.subOk2 t.subset_name = env'.subOk2 t.subset_name →
      env.saveOk t.subset_name = env'.saveOk t.subset_name →
      _process_single_subset env t = _process_single_subset env' t) ∧
    (∀ (env : BuildEnv) (t : SubsetTask),
      (_process_single_subset env t).name = t.subset_name) ∧
    (∀ (env : BuildEnv) (tasks : List SubsetTask),
      (tasks.map (_process_single_subset env)).length = tasks.length) ∧
    (∀ n : String, jobMessage (JobResult.failed n) = "处理子集 " ++ n ++ " 失败") := by
  refine ⟨?_, ?_, ?_, fun n => rfl⟩
  · intro env env' t hsup hload h1 h2 hsave
    unfold _process_single_subset
    rw [hsup, hload, h1, h2, hsave]
  · intro env t
    unfold _process_single_subset
    split_ifs <;> rfl
  · intro env tasks
    exact List.length_map tasks _

/-- Witness for C3's amended theorem: subset `"0"` has the same outcome
whether or not its sibling `"1"` fails (the two environments agree at `"0"`
only), and the outcome names subset `"0"`. -/
theorem subset_failure_isolated_witness :
    _process_single_subset envIsoA
        { subset := "U+0041", subset_name := "0", woff2_file_name := "Demo:0" }
      = _process_single_subset envIsoB
        { subset := "U+0041", subset_name := "0", woff2_file_name := "Demo:0" } ∧
    (_process_single_subset envIsoA
        { subset := "U+0041", subset_name := "0", woff2_file_name := "Demo:0" }).name
      = "0" :=
  ⟨subset_failure_isolated.1 envIsoA envIsoB _ rfl rfl (by decide) (by decide) rfl,
   subset_failure_isolated.2.1 envIsoA _⟩

/-! ## Claim C4 -/

/-- Claim C4 names the intended behavior; the code raises instead.  With a
subset whose range spec parses to the empty codepoint set (here the empty
spec string) and no pre-existing metadata record, the metadata phase binds
`actual_set = 0.0` (a float) and then evaluates `len(actual_set)`, which
raises `TypeError` — so `create_subset` aborts and no record (coverage 0,
supported_chars 0) is ever written. -/
theorem metadata_empty_subset_type_error :
    computeRecord envEmptySpec "Demo" "" "0" "Demo:0"
      = Except.error (PyExc.typeError "object of type 'float' has no len()") ∧
    create_subset envEmptySpec (FSState.mk ∅ []) "Demo.ttf" false
      = Except.error (PyExc.typeError "object of type 'float' has no len()") :=
  ⟨rfl, rfl⟩

/-! ## Claim C6 -/

/-- Counterexample to claim C6 as stated: on a two-CPU host the pool size
`int(cpu_count() / 4)` is zero, and constructing
`ProcessPoolExecutor(max_workers=0)` raises ValueError, so a `create_subset`
call that has work to do fails — the size is not "at least one ... regardless
of the host's CPU count". -/
theorem worker_pool_zero_counterexample :
    num_cores 2 = 0 ∧
    process_pool_init (num_cores 2)
      = Except.error (PyExc.valueError "max_workers must be greater than 0") ∧
    create_subset envLowCpu (FSState.mk ∅ []) "Demo.ttf" false
      = Except.error (PyExc.valueError "max_workers must be greater than 0") :=
  ⟨rfl, rfl, rfl⟩

/-- Claim C6 (amended): the worker pool is sized `int(cpu_count / 4)` — a
fixed fraction of the available parallel execution units, bounded by the CPU
count — and on hosts with at least four execution units that size is at
least one and pool construction succeeds; on smaller hosts it is zero and
construction raises (see the counterexample). -/
theorem worker_pool_bounds (cpu : ℕ) (h : 4 ≤ cpu) :
    1 ≤ num_cores cpu ∧ num_cores cpu ≤ cpu ∧
    process_pool_init (num_cores cpu) = Except.ok (num_cores cpu) := by
  unfold num_cores process_pool_init
  refine ⟨by omega, by omega, ?_⟩
  rw [if_neg (by omega)]

/-- Witness for C6's amended theorem at an eight-CPU host. -/
theorem worker_pool_bounds_witness :
    1 ≤ num_cores 8 ∧ num_cores 8 ≤ 8 ∧
    process_pool_init (num_cores 8) = Except.ok (num_cores 8) :=
  worker_pool_bounds 8 (by decide)

/-! ## Server lemmas -/

theorem insertSorted_ne_nil (s : String) (l : List String) : insertSorted s l ≠ [] := by
  cases l with
  | nil => simp [insertSorted]
  | cons t r =>
    unfold insertSorted
    split_ifs <;> simp

theorem sortStrings_ne_nil (l : List String) (h : l ≠ []) : sortStrings l ≠ [] := by
  cases l with
  | nil => exact absurd rfl h
  | cons s r =>
    unfold sortStrings
    rw [List.foldr_cons]
    exact insertSorted_ne_nil s _

theorem rulesForMetas_filter_map (fontName style weight display : String)
    (metas : List MetaData) :
    rulesForMetas fontName style weight display metas
      = (metas.filter (fun m => decide (0 < m.coverage))).map
          (fun m => ruleText m.subset fontName style weight
            ("/s/" ++ m.woff2_file_name) m.subset_range display) := by
  induction metas with
  | nil => rfl
  | cons m rest ih =>
    unfold rulesForMetas
    rw [List.filter_cons]
    by_cases hm : m.coverage ≤ 0
    · rw [if_pos hm, ih]
      have hd : decide (0 < m.coverage) = false := by
        simp only [decide_eq_false_iff_not, not_lt]
        exact hm
      rw [hd]
      simp
    · rw [if_neg hm, ih]
      have hd : decide (0 < m.coverage) = true := by
        simp only [decide_eq_true_eq]
        exact lt_of_not_le hm
      rw [hd]
      simp

theorem variantLoop_flatMap (lookup : String → List MetaData)
    (fontName display : String) (style : String) (vs : List String) :
    variantLoop lookup fontName display style vs
      = (resolveVariants style vs).flatMap
          (fun sw => rulesForMetas fontName sw.1 sw.2 display (lookup fontName)) := by
  induction vs generalizing style with
  | nil => rfl
  | cons v vs ih =>
    unfold variantLoop resolveVariants
    by_cases hit : containsItalic v = true
    · rw [if_pos hit, if_pos hit, List.flatMap_cons, ih]
    · rw [if_neg hit, if_neg hit, List.flatMap_cons, ih]

theorem resolveVariants_italic_all (vs : List String) :
    (resolveVariants "italic" vs).all (fun sw => sw.1 == "italic") = true := by
  induction vs with
  | nil => rfl
  | cons v vs ih =>
    unfold resolveVariants
    by_cases hit : containsItalic v = true
    · rw [if_pos hit]
      simp only [List.all_cons, ih, Bool.and_true]
      rfl
    · rw [if_neg hit]
      simp only [List.all_cons, ih, Bool.and_true]
      rfl

/-! ## Claim C5 -/

/-- Claim C5 names the intended behavior; the code cannot produce it.
Splitting the family parameter (default `""`) on `|` always yields at least
one, possibly empty, token, so the sorted, deduplicated set is never empty
and the `400` guard is unreachable: `handle_css` never returns the
client-error response, for any metadata lookup and any query; in particular
a request with no family parameter proceeds to synthesis and yields an empty
`200` stylesheet. -/
theorem handle_css_never_bad_request :
    (∀ (lookup : String → List MetaData) (familyParam displayParam : Option String),
      handle_css lookup familyParam displayParam ≠ CssResponse.badRequest) ∧
    handle_css (fun _ => []) none none = CssResponse.okCss "" := by
  constructor
  · intro lookup fp dp
    unfold handle_css
    have hfl : (pySplitBy '|'
        ((fp.getD "").toList.map (fun c => if c == '+' then ' ' else c))).map String.mk
        ≠ [] := by
      intro hnil
      exact pySplitBy_ne_nil '|' _ (List.map_eq_nil_iff.mp hnil)
    have hsd : ((sortStrings ((pySplitBy '|'
        ((fp.getD "").toList.map (fun c => if c == '+' then ' ' else c))).map
          String.mk)).dedup).isEmpty ≠ true := by
      intro hemp
      rw [List.isEmpty_iff] at hemp
      exact sortStrings_ne_nil _ hfl ((List.dedup_eq_nil _).mp hemp)
    rw [if_neg hsd]
    intro hcontra
    cases hcontra
  · decide

/-! ## Claim C9 -/

/-- Claim C9: per family spec and per requested variant, `_generate_css`
emits exactly one `@font-face` rule for each metadata record of the family
with positive coverage — carrying the family name, the resolved style and
weight of the variant, the URL `/s/` plus the record's artifact file name,
the record's original `subset_range` as the unicode-range value, and the
given display strategy — and no rule for a record with zero (or negative)
coverage: the record loop equals a filter-then-map, the variant loop equals
a flat map over the resolved variants, and the whole synthesizer is their
composition joined with newlines. -/
theorem generate_css_rule_structure :
    (∀ (fontName style weight display : String) (metas : List MetaData),
      rulesForMetas fontName style weight display metas
        = (metas.filter (fun m => decide (0 < m.coverage))).map
            (fun m => ruleText m.subset fontName style weight
              ("/s/" ++ m.woff2_file_name) m.subset_range display)) ∧
    (∀ (lookup : String → List MetaData) (fontName display style : String)
      (vs : List String),
      variantLoop lookup fontName display style vs
        = (resolveVariants style vs).flatMap
            (fun sw => rulesForMetas fontName sw.1 sw.2 display (lookup fontName))) ∧
    (∀ (lookup : String → List MetaData) (fams : List String) (display : String),
      _generate_css lookup fams display
        = String.intercalate "\n" (fams.flatMap (fun spec =>
            (resolveVariants "normal" (specVariants spec)).flatMap (fun sw =>
              ((lookup (specName spec)).filter (fun m => decide (0 < m.coverage))).map
                (fun m => ruleText m.subset (specName spec) sw.1 sw.2
                  ("/s/" ++ m.woff2_file_name) m.subset_range display))))) := by
  refine ⟨rulesForMetas_filter_map, variantLoop_flatMap, ?_⟩
  intro lookup fams display
  unfold _generate_css
  congr 1
  have hfn : specRules lookup display = (fun spec =>
      (resolveVariants "normal" (specVariants spec)).flatMap (fun sw =>
        ((lookup (specName spec)).filter (fun m => decide (0 < m.coverage))).map
          (fun m => ruleText m.subset (specName spec) sw.1 sw.2
            ("/s/" ++ m.woff2_file_name) m.subset_range display))) := by
    funext spec
    unfold specRules
    rw [variantLoop_flatMap]
    have hr : (fun sw : String × String =>
        rulesForMetas (specName spec) sw.1 sw.2 display (lookup (specName spec)))
        = (fun sw : String × String =>
          ((lookup (specName spec)).filter (fun m => decide (0 < m.coverage))).map
            (fun m => ruleText m.subset (specName spec) sw.1 sw.2
              ("/s/" ++ m.woff2_file_name) m.subset_range display)) := by
      funext sw
      rw [rulesForMetas_filter_map]
    rw [hr]
  rw [hfn]

/-! ## Claim C10 -/

/-- Claim C10: in `_generate_css` the resolved font-style is not a function
of the variant token alone — the `style` variable is initialized once per
family spec and never reset to normal, so once a variant containing the
italic marker has been processed every later variant of the same spec
resolves (and is emitted, by the variant loop) with style italic even
without a marker: in the resolved list of any spec's variants, every entry
from an italic-marked variant onwards carries style `"italic"`; the variant
loop emits exactly these resolved pairs; and concretely
`["400italic", "700"]` resolves the unmarked `"700"` to italic. -/
theorem sticky_italic_style :
    (∀ (st : String) (pre : List String) (v : String) (post : List String),
      containsItalic v = true →
      ((resolveVariants st (pre ++ v :: post)).drop pre.length).all
        (fun sw => sw.1 == "italic") = true) ∧
    (∀ (lookup : String → List MetaData) (fontName display style : String)
      (vs : List String),
      variantLoop lookup fontName display style vs
        = (resolveVariants style vs).flatMap
            (fun sw => rulesForMetas fontName sw.1 sw.2 display (lookup fontName))) ∧
    resolveVariants "normal" ["400italic", "700"]
      = [("italic", "400"), ("italic", "700")] := by
  refine ⟨?_, variantLoop_flatMap, by decide⟩
  intro st pre v post hv
  induction pre generalizing st with
  | nil =>
    rw [List.nil_append]
    simp only [List.length_nil, List.drop_zero]
    unfold resolveVariants
    rw [if_pos hv]
    simp only [List.all_cons, resolveVariants_italic_all, Bool.and_true]
    rfl
  | cons p pre ih =>
    rw [List.cons_append]
    unfold resolveVariants
    by_cases hp : containsItalic p = true
    · rw [if_pos hp]
      rw [List.length_cons, List.drop_succ_cons]
      exact ih "italic"
    · rw [if_neg hp]
      rw [List.length_cons, List.drop_succ_cons]
      exact ih st

/-- Witness for C10: with spec variants `["300", "400italic", "700"]`
starting from style normal, every resolved entry from the marked variant on
(dropping the one entry before it) has style italic — in particular the
unmarked trailing `"700"`. -/
theorem sticky_italic_style_witness :
    ((resolveVariants "normal" (["300"] ++ "400italic" :: ["700"])).drop 1).all
      (fun sw => sw.1 == "italic") = true :=
  sticky_italic_style.1 "normal" ["300"] "400italic" ["700"] (by decide)
